import Mathlib

/-!
Verification of the Lazor puzzle solver against its specification.

This file shallowly embeds the core logic of the repository's four drafts
("Lazor Project/Lazors.py", "lazors1.py", "lazors2.py", "lazors3.py"):
the cell-lookup and interaction rules, the beam tracers, the candidate
enumerators and the brute-force solvers.  Python integers are modelled as
`Int` (Lean's `/` and `%` on `Int` agree with Python's floor division and
nonnegative remainder for the positive divisors used here), Python lists
as `List`, Python sets of beam states as duplicate-free `List`s, and the
unbounded `while` loops as fuel-indexed recursions together with theorems
showing that beyond an explicit bound the fuel does not change the result.
-/

namespace LazorProof

/-- A doubled-coordinate position `(x, y)`. -/
abbrev Pos := Int × Int

/-- A unit-step direction `(dx, dy)`. -/
abbrev Dir := Int × Int

/-- A beam state: `(position, direction)`, the tracer's dedup key. -/
abbrev BeamState := Pos × Dir

/-- A grid: list of rows of cell characters, as parsed from a `.bff` file. -/
abbrev Grid := List (List Char)

/-- Number of columns, `len(grid[0])` in the Python sources. -/
def gridW (g : Grid) : Nat := (g.headD []).length

/-- Number of rows, `len(grid)` in the Python sources. -/
def gridH (g : Grid) : Nat := g.length

namespace Lz

/-- Embeds `get_block(grid, point)` of `Lazors.py` (lines 99-110; identical
in `lazors1.py`): negative coordinates and odd-odd coordinates have no
block; otherwise the coordinate maps to cell `(y // 2, x // 2)` when that
cell is in range. -/
def getBlock (g : Grid) (x y : Int) : Option Char :=
  if x < 0 ∨ y < 0 then none
  else if x % 2 = 1 ∧ y % 2 = 1 then none
  else
    let row := (y / 2).toNat
    let col := (x / 2).toNat
    if gridH g ≤ row ∨ gridW g ≤ col then none
    else some ((g.getD row []).getD col 'x')

/-- Embeds `calculate_interaction(block_type, direction, collision_point)`
of `Lazors.py` (lines 113-136; identical in `lazors1.py`): the reflective
and refractive cases test the parities of both `x` and `y`. -/
def calcInteraction (blockType : Char) (d : Dir) (p : Pos) : List Dir :=
  let dx := d.1
  let dy := d.2
  let x := p.1
  let y := p.2
  if blockType = 'A' then
    if x % 2 = 0 ∧ y % 2 = 1 then [(-dx, dy)]
    else if x % 2 = 1 ∧ y % 2 = 0 then [(dx, -dy)]
    else []
  else if blockType = 'B' then []
  else if blockType = 'C' then
    if x % 2 = 0 ∧ y % 2 = 1 then [(dx, dy), (-dx, dy)]
    else if x % 2 = 1 ∧ y % 2 = 0 then [(dx, dy), (dx, -dy)]
    else [(dx, dy)]
  else [d]

end Lz

namespace Lz2

/-- Embeds `Block.calculate_interaction` of `lazors2.py` (lines 26-42;
textually identical in `lazors3.py` lines 121-145): only the parity of the
collision `x`-coordinate is consulted. -/
def calcInteraction (blockType : Char) (d : Dir) (p : Pos) : List Dir :=
  let dx := d.1
  let dy := d.2
  let x := p.1
  if blockType = 'A' then
    if x % 2 = 0 then [(-dx, dy)] else [(dx, -dy)]
  else if blockType = 'B' then []
  else if blockType = 'C' then
    if x % 2 = 0 then [(dx, dy), (-dx, dy)] else [(dx, dy), (dx, -dy)]
  else [d]

end Lz2

namespace Lz

/-- Fuel bound for one straight-line flight of the beam: a beam with a
nonzero unit direction leaves the `2*W x 2*H` doubled board, or collides,
within this many lattice steps. -/
def walkFuel (g : Grid) : Nat := 2 * gridW g + 2 * gridH g + 2

/-- Upper bound on the remaining iterations of one straight-line flight
from `(x, y)` with unit direction `(dx, dy)`: out of bounds terminates at
once; otherwise the coordinate moved by a nonzero component reaches the
board edge within the stated number of steps. -/
def walkMeasure (g : Grid) (x y dx dy : Int) : Nat :=
  if x < 0 ∨ y < 0 ∨ (2 * gridW g : Int) ≤ x ∨ (2 * gridH g : Int) ≤ y then 1
  else if dx = 1 then (2 * gridW g - x).toNat + 1
  else if dx = -1 then x.toNat + 2
  else if dy = 1 then (2 * gridH g - y).toNat + 1
  else y.toNat + 2

/-- Embeds the inner `while True` loop of `trace_laser` in `Lazors.py`
(lines 154-170; identical in `lazors1.py`): starting at `(x, y)` with
direction `(dx, dy)`, record every position passed until the beam leaves
the board (nothing more recorded) or meets a block cell, where the
collision position is recorded and the interaction's successor states are
returned for the work queue.  The fuel argument makes the recursion
structural; `walk_spent` below shows any fuel of at least `walkFuel g`
gives the same result for a valid direction (the Python loop would run
forever on the direction `(0, 0)`, which no puzzle laser has). -/
def walk (g : Grid) : Nat → Int → Int → Int → Int → List Pos × List BeamState
  | 0, _, _, _, _ => ([], [])
  | fuel + 1, x, y, dx, dy =>
    if x < 0 ∨ y < 0 ∨ (2 * gridW g : Int) ≤ x ∨ (2 * gridH g : Int) ≤ y then ([], [])
    else
      let b := getBlock g x y
      if b = some 'A' ∨ b = some 'B' ∨ b = some 'C' then
        ([(x, y)],
          (calcInteraction (b.getD 'x') (dx, dy) (x, y)).map
            (fun nd => ((x + nd.1, y + nd.2), nd)))
      else
        let rest := walk g fuel (x + dx) (y + dy) dx dy
        ((x, y) :: rest.1, rest.2)

/-- Embeds the outer work-queue loop of `trace_laser` in `Lazors.py`
(lines 145-167): pop a beam state, discard it if already visited,
otherwise mark it visited and run the straight-line flight, appending the
new beam states to the queue.  The loop guard is
`queue and len(visited) < max_reflections`.  Returns the recorded path
and the final visited set (as a duplicate-free list).  The fuel argument
makes the recursion structural; `traceAux_spent` below shows any fuel of
at least `|queue| + 2 * maxRefl + 1` gives the same result. -/
def traceAux (g : Grid) (maxRefl : Nat) :
    Nat → List BeamState → List BeamState → List Pos → List Pos × List BeamState
  | _, [], visited, acc => (acc, visited)
  | 0, _ :: _, visited, acc => (acc, visited)
  | fuel + 1, s :: rest, visited, acc =>
    if maxRefl ≤ visited.length then (acc, visited)
    else if s ∈ visited then traceAux g maxRefl fuel rest visited acc
    else
      let w := walk g (walkFuel g) s.1.1 s.1.2 s.2.1 s.2.2
      traceAux g maxRefl fuel (rest ++ w.2) (s :: visited) (acc ++ w.1)

/-- Embeds `trace_laser(grid, start_pos, start_dir, max_reflections)` of
`Lazors.py` (lines 139-172), returning the list of recorded positions in
order (the Python path also numbers each entry with a step counter, used
only for display and dropped here; `lazors1.py`'s solver reads exactly
these positions via `p[0]`). -/
def traceLaser (g : Grid) (start : Pos) (dir : Dir) (maxRefl : Nat) : List Pos :=
  (traceAux g maxRefl (1 + 2 * maxRefl + 1) [(start, dir)] [] []).1

end Lz

namespace Lz3

/-- Embeds `generate_full_grid(grid_origin)` of `lazors3.py` (lines
83-106): the `(2*rows+1) x (2*cols+1)` full grid holding the original cell
`((i-1)/2, (j-1)/2)` at each odd-odd position and `'x'` everywhere else.
The Python builds each row by appending in index order; mapping over
`List.range` produces the same rows. -/
def generateFullGrid (g : Grid) : Grid :=
  (List.range (2 * gridH g + 1)).map (fun i =>
    if i % 2 = 0 then List.replicate (2 * gridW g + 1) 'x'
    else (List.range (2 * gridW g + 1)).map (fun j =>
      if j % 2 = 0 then 'x' else (g.getD ((i - 1) / 2) []).getD ((j - 1) / 2) 'x'))

/-- Cell lookup `grid[y][x]` used by `Lazor.trace` in `lazors3.py` (line
181), applied only after the `0 <= x < width and 0 <= y < height` check. -/
def cellAt (g : Grid) (x y : Int) : Char := (g.getD y.toNat []).getD x.toNat 'x'

/-- Embeds the work-queue loop of `Lazor.trace` in `lazors3.py` (lines
160-191): pop a beam state, discard it if already visited, otherwise
record its position and look one step ahead: out of the grid ends the
branch; a block cell `A`/`B`/`C` queues the interaction results at the
next position (which is itself never recorded); free space queues the
advanced state.  Every processed (non-discarded) state increments the
step counter, and the loop guard is `queue and steps < max_steps`.
Returns the path and the final visited set.  The fuel argument makes the
recursion structural; `Lz3.traceAux_spent` below shows any fuel of at
least `|queue| + 2 * maxSteps + 1` gives the same result. -/
def traceAux (g : Grid) (maxSteps : Nat) :
    Nat → List BeamState → List BeamState → List Pos → Nat → List Pos × List BeamState
  | _, [], visited, path, _ => (path, visited)
  | 0, _ :: _, visited, path, _ => (path, visited)
  | fuel + 1, s :: rest, visited, path, steps =>
    if maxSteps ≤ steps then (path, visited)
    else if s ∈ visited then traceAux g maxSteps fuel rest visited path steps
    else
      let x := s.1.1
      let y := s.1.2
      let dx := s.2.1
      let dy := s.2.2
      let nx := x + dx
      let ny := y + dy
      let path2 := path ++ [(x, y)]
      if nx < 0 ∨ (gridW g : Int) ≤ nx ∨ ny < 0 ∨ (gridH g : Int) ≤ ny then
        traceAux g maxSteps fuel rest (s :: visited) path2 (steps + 1)
      else
        let cell := cellAt g nx ny
        if cell = 'A' ∨ cell = 'B' ∨ cell = 'C' then
          traceAux g maxSteps fuel
            (rest ++ (Lz2.calcInteraction cell (dx, dy) (nx, ny)).map
              (fun nd => (((nx, ny) : Pos), nd)))
            (s :: visited) path2 (steps + 1)
        else
          traceAux g maxSteps fuel (rest ++ [((nx, ny), (dx, dy))])
            (s :: visited) path2 (steps + 1)

/-- Embeds `Lazor(grid, start, direction, max_steps).trace()` of
`lazors3.py`, returning the ordered list of recorded positions. -/
def trace (g : Grid) (start : Pos) (dir : Dir) (maxSteps : Nat) : List Pos :=
  (traceAux g maxSteps (1 + 2 * maxSteps + 1) [(start, dir)] [] [] 0).1

end Lz3

namespace Lz

/-- Embeds the per-candidate evaluation loop of `solve_with_bruteforce` in
`lazors1.py` (lines 227-234): trace each laser in turn with the default
budget 50, accumulate its positions into the hit-set, and break with
failure as soon as the targets are not all covered by the hits collected
so far. -/
def acceptsAux (g : Grid) (targets : List Pos) :
    List (Pos × Dir) → List Pos → Bool
  | [], _ => true
  | (s, d) :: rest, hits =>
    let hits2 := hits ++ traceLaser g s d 50
    if targets.all fun p => decide (p ∈ hits2) then acceptsAux g targets rest hits2
    else false

/-- The candidate test of `lazors1.py`, started with an empty hit-set. -/
def accepts (g : Grid) (lazors : List (Pos × Dir)) (targets : List Pos) : Bool :=
  acceptsAux g targets lazors []

end Lz

namespace Lz3

/-- The union of all lasers' visited points for one candidate, as
accumulated by `solve_puzzle` of `lazors3.py` (lines 238-242, with the
`max_steps=200` it passes to `Lazor`). -/
def allHits (g : Grid) (lazors : List (Pos × Dir)) : List Pos :=
  lazors.flatMap fun sd => trace g sd.1 sd.2 200

/-- Embeds the candidate test of `solve_puzzle` in `lazors3.py` (line 244):
every laser is traced, then `all(p in all_hits for p in targets)`. -/
def accepts (g : Grid) (lazors : List (Pos × Dir)) (targets : List Pos) : Bool :=
  targets.all fun p => decide (p ∈ allHits g lazors)

end Lz3

namespace Lz

/-- Reads cell `(i, j)` of a grid (row-major, `grid[i][j]`). -/
def cellD (g : Grid) (i j : Nat) : Char := (g.getD i []).getD j 'x'

/-- Embeds one assignment `temp_grid[i][j] = block` of the candidate
filling loops (`Lazors.py` lines 210-212, `lazors1.py` 223-225,
`lazors3.py` 233-236).  The loops act on `copy.deepcopy(grid)`; Lean's
value semantics models the deep copy, so the base grid is an unchanged
value. -/
def setCell (g : Grid) (i j : Nat) (c : Char) : Grid :=
  g.set i ((g.getD i []).set j c)

/-- Embeds the full candidate-filling loop
`for (i, j), block in zip(slots, perm): temp_grid[i][j] = block`. -/
def fillCells (g : Grid) (ps : List ((Nat × Nat) × Char)) : Grid :=
  ps.foldl (fun acc p => setCell acc p.1.1 p.1.2 p.2) g

/-- The puzzle dictionary produced by `parse_bff_file`:
grid, block inventory, lasers and target points. -/
structure PuzzleData where
  grid : Grid
  blocksA : Nat
  blocksB : Nat
  blocksC : Nat
  lazors : List (Pos × Dir)
  points : List Pos

/-- Total inventory size, `sum(blocks.values())`. -/
def totalBlocks (d : PuzzleData) : Nat := d.blocksA + d.blocksB + d.blocksC

/-- Embeds the `empty_slots` comprehension of the solvers: the row-major
list of cells holding `'o'`. -/
def emptySlots (g : Grid) : List (Nat × Nat) :=
  (List.range (gridH g)).flatMap fun i =>
    (List.range (gridW g)).filterMap fun j =>
      if (g.getD i []).getD j 'x' = 'o' then some (i, j) else none

/-- The multiset of block letters to place,
`['A']*a + ['B']*b + ['C']*c`. -/
def blockTypesList (a b c : Nat) : List Char :=
  List.replicate a 'A' ++ List.replicate b 'B' ++ List.replicate c 'C'

/-- The distinct type-permutations of the inventory.  This models the
contents of both `set(itertools.permutations(block_types))` in
`Lazors.py`/`lazors1.py` (each distinct arrangement exactly once; the
iteration order of the Python set is not determined by the puzzle input
and is therefore passed separately where it matters, see claim C5) and
sympy's `multiset_permutations` in `lazors2.py`/`lazors3.py` (each
distinct arrangement exactly once, in a fixed order).  It is built on
`List.permutations'`, whose members are exactly the permutations of `l`
and whose structural recursion lets concrete instances evaluate. -/
def distinctPerms (l : List Char) : List (List Char) := l.permutations'.dedup

/-- Models `itertools.combinations(slots, k)`: all size-`k` subsequences
of `slots` in their original relative order. -/
def combinations {α : Type} (k : Nat) (l : List α) : List (List α) :=
  List.sublistsLen k l

/-- Models `itertools.product(slot_combinations, typePerms)`: every slot
combination paired with every type permutation, combinations outermost. -/
def candidatePairs (slots : List (Nat × Nat)) (k : Nat)
    (permOrder : List (List Char)) : List (List (Nat × Nat) × List Char) :=
  (combinations k slots).flatMap fun s => permOrder.map fun p => (s, p)

/-- The candidate grids evaluated by `solve_with_bruteforce` of
`lazors1.py` (`itertools.islice(..., max_attempts)` followed by the
deep-copy fill), each built from the solver's own base grid. -/
def candidateGrids (d : PuzzleData) (maxAttempts : Nat)
    (permOrder : List (List Char)) : List Grid :=
  ((candidatePairs (emptySlots d.grid) (totalBlocks d) permOrder).take maxAttempts).map
    fun sp => fillCells d.grid (sp.1.zip sp.2)

/-- Embeds `solve_with_bruteforce(data, max_attempts)` of `lazors1.py`
(lines 192-241; `Lazors.py` lines 179-228 is identical up to the elements
stored in the hit-set): guard against an empty inventory, guard against
more blocks than empty slots, then return the first enumerated candidate
whose evaluation succeeds.  `permOrder` is the iteration order of the
Python set of permutations, which the puzzle input does not determine. -/
def solve (d : PuzzleData) (maxAttempts : Nat)
    (permOrder : List (List Char)) : Option Grid :=
  if totalBlocks d = 0 then none
  else if (emptySlots d.grid).length < totalBlocks d then none
  else (candidateGrids d maxAttempts permOrder).find? fun g2 =>
    accepts g2 d.lazors d.points

end Lz

namespace Lz2

/-- Embeds the work-queue loop of `trace_laser` in `lazors2.py` (lines
112-154): pop a beam state, discard it if visited, otherwise record the
position and read cell `(y // 2, x // 2)` when in range.  An opaque cell
breaks the whole loop; a reflective or refractive cell queues the
interaction's successors that stay on the doubled board; free space
queues the advanced state under the same bound check.  Every processed
state increments the step counter, and the loop guard is
`queue and steps < max_steps`.  Fuel makes the recursion structural. -/
def traceAux (g : Grid) (maxSteps : Nat) :
    Nat → List BeamState → List BeamState → List Pos → Nat → List Pos
  | _, [], _, path, _ => path
  | 0, _ :: _, _, path, _ => path
  | fuel + 1, s :: rest, visited, path, steps =>
    if maxSteps ≤ steps then path
    else if s ∈ visited then traceAux g maxSteps fuel rest visited path steps
    else
      let x := s.1.1
      let y := s.1.2
      let dx := s.2.1
      let dy := s.2.2
      let path2 := path ++ [(x, y)]
      let row := y / 2
      let col := x / 2
      let block : Option Char :=
        if 0 ≤ row ∧ row < (gridH g : Int) ∧ 0 ≤ col ∧ col < (gridW g : Int) then
          some ((g.getD row.toNat []).getD col.toNat 'x')
        else none
      if block = some 'B' then path2
      else
        let nds : List Dir :=
          if block = some 'A' ∨ block = some 'C' then
            calcInteraction (block.getD 'x') (dx, dy) (x, y)
          else [(dx, dy)]
        let newQ := nds.filterMap fun nd =>
          let nx := x + nd.1
          let ny := y + nd.2
          if 0 ≤ nx ∧ nx < 2 * (gridW g : Int) ∧ 0 ≤ ny ∧ ny < 2 * (gridH g : Int) then
            some (((nx, ny) : Pos), nd)
          else none
        traceAux g maxSteps fuel (rest ++ newQ) (s :: visited) path2 (steps + 1)

/-- Embeds `trace_laser(grid, start_pos, start_dir)` of `lazors2.py` with
its default `max_steps=100`. -/
def traceLaser (g : Grid) (start : Pos) (dir : Dir) (maxSteps : Nat) : List Pos :=
  traceAux g maxSteps (1 + 2 * maxSteps + 1) [(start, dir)] [] [] 0

/-- Embeds the per-candidate evaluation loop of `solve_puzzle` in
`lazors2.py` (lines 196-203): same break-on-first-failure structure as
`lazors1.py`, over this draft's tracer. -/
def acceptsAux (g : Grid) (targets : List Pos) :
    List (Pos × Dir) → List Pos → Bool
  | [], _ => true
  | (s, d) :: rest, hits =>
    let hits2 := hits ++ traceLaser g s d 100
    if targets.all fun p => decide (p ∈ hits2) then acceptsAux g targets rest hits2
    else false

/-- The candidate test of `lazors2.py`, started with an empty hit-set. -/
def accepts (g : Grid) (lazors : List (Pos × Dir)) (targets : List Pos) : Bool :=
  acceptsAux g targets lazors []

/-- The candidate grids evaluated by `solve_puzzle` of `lazors2.py`:
the same product enumeration, over sympy's deterministic
`multiset_permutations` order. -/
def candidateGrids (d : Lz.PuzzleData) (maxAttempts : Nat) : List Grid :=
  ((Lz.candidatePairs (Lz.emptySlots d.grid) (Lz.totalBlocks d)
      (Lz.distinctPerms (Lz.blockTypesList d.blocksA d.blocksB d.blocksC))).take
    maxAttempts).map fun sp => Lz.fillCells d.grid (sp.1.zip sp.2)

/-- Embeds `solve_puzzle(data, max_attempts)` of `lazors2.py` (lines
160-209): no guards at all — when the inventory exceeds the empty slots,
the combination list is empty, so the loop body never runs. -/
def solve (d : Lz.PuzzleData) (maxAttempts : Nat) : Option Grid :=
  (candidateGrids d maxAttempts).find? fun g2 => accepts g2 d.lazors d.points

end Lz2

/-- Claim C1, counterexample: the claim's x-parity-only interaction table is
false for `calculate_interaction` of `Lazors.py`/`lazors1.py`.  At the
collision point `(0, 0)` (x even) with incoming direction `(1, 1)` a
reflective block yields `[]`, not the claimed `[(-1, 1)]`; the same call at
`(0, 1)` yields `[(-1, 1)]`, so the y-parity is consulted, contrary to the
claim.  A trace on the one-cell grid `[['A']]` shows the beam actually dies
at that collision instead of reflecting. -/
theorem c1_counterexample :
    Lz.calcInteraction 'A' (1, 1) (0, 0) = [] ∧
    Lz.calcInteraction 'A' (1, 1) (0, 1) = [(-1, 1)] ∧
    ([] : List Dir) ≠ [(-1, 1)] ∧
    Lz.traceLaser [['A']] (0, 0) (1, 1) 50 = [(0, 0)] := by
  refine ⟨rfl, rfl, by decide, by decide⟩

/-- Claim C1, amended: the x-parity-only table (reflective `(-dx, dy)` when
x is even, `(dx, -dy)` when x is odd; refractive adds the transmitted
direction; y never consulted) holds exactly for
`Block.calculate_interaction` of `lazors2.py`/`lazors3.py`.  The
`calculate_interaction` of `Lazors.py`/`lazors1.py` instead also consults
the y-parity: it returns those sets only when x and y have opposite
parities, and otherwise returns `[]` (reflective) or just the transmitted
direction (refractive). -/
theorem c1_amended (bt : Char) (dx dy x y y2 : Int) :
    (Lz2.calcInteraction bt (dx, dy) (x, y) = Lz2.calcInteraction bt (dx, dy) (x, y2)) ∧
    (Lz2.calcInteraction 'A' (dx, dy) (x, y) =
      if x % 2 = 0 then [(-dx, dy)] else [(dx, -dy)]) ∧
    (Lz2.calcInteraction 'B' (dx, dy) (x, y) = []) ∧
    (Lz2.calcInteraction 'C' (dx, dy) (x, y) =
      if x % 2 = 0 then [(dx, dy), (-dx, dy)] else [(dx, dy), (dx, -dy)]) ∧
    (Lz.calcInteraction 'A' (dx, dy) (x, y) =
      if x % 2 = 0 ∧ y % 2 = 1 then [(-dx, dy)]
      else if x % 2 = 1 ∧ y % 2 = 0 then [(dx, -dy)]
      else []) ∧
    (Lz.calcInteraction 'C' (dx, dy) (x, y) =
      if x % 2 = 0 ∧ y % 2 = 1 then [(dx, dy), (-dx, dy)]
      else if x % 2 = 1 ∧ y % 2 = 0 then [(dx, dy), (dx, -dy)]
      else [(dx, dy)]) :=
  ⟨rfl, rfl, rfl, rfl, rfl, rfl⟩

/-- Claim C3, counterexample: in `lazors3.py` (the draft whose grids do
place blocks at odd-odd doubled coordinates) the grid generated from the
row `['o', 'B', 'o']` has its only block-cell on the ray from `(1, 1)` in
direction `(1, 0)` opaque at `(3, 1)`, yet tracing that laser yields the
hit-set `{(1, 1), (2, 1)}`: position `(3, 1)` is not recorded, contrary to
the claimed hit-set `{(1, 1), (2, 1), (3, 1)}`. -/
theorem c3_counterexample :
    Lz3.cellAt (Lz3.generateFullGrid [['o', 'B', 'o']]) 3 1 = 'B' ∧
    (∀ x : Fin 7, (x : Int) ≠ 3 →
      Lz3.cellAt (Lz3.generateFullGrid [['o', 'B', 'o']]) (x : Int) 1 ∉
        (['A', 'B', 'C'] : List Char)) ∧
    Lz3.trace (Lz3.generateFullGrid [['o', 'B', 'o']]) (1, 1) (1, 0) 200 = [(1, 1), (2, 1)] ∧
    ((3, 1) : Pos) ∉ Lz3.trace (Lz3.generateFullGrid [['o', 'B', 'o']]) (1, 1) (1, 0) 200 := by
  refine ⟨rfl, by decide, by decide, by decide⟩

/-- Claim C3, amended: tracing direction `(1, 0)` from `(1, 1)` through the
`lazors3.py` full grid for the row `['o', 'B', 'o']`, whose only block-cell
on that ray is opaque at `(3, 1)`, yields exactly the hit-set
`{(1, 1), (2, 1)}`: the opaque interaction produces zero resulting
directions, but the collision position itself is not recorded, because the
tracer looks one step ahead and stops before stepping onto the block.  In
`Lazors.py`/`lazors1.py` the claimed scenario is unrealizable: an odd-odd
coordinate such as `(3, 1)` never resolves to a block at all. -/
theorem c3_amended :
    (Lz3.trace (Lz3.generateFullGrid [['o', 'B', 'o']]) (1, 1) (1, 0) 200
      = [(1, 1), (2, 1)]) ∧
    (∀ (d : Dir) (p : Pos), Lz2.calcInteraction 'B' d p = []) ∧
    (∀ (g : Grid) (x y : Int), x % 2 = 1 → y % 2 = 1 → Lz.getBlock g x y = none) := by
  refine ⟨by decide, fun d p => rfl, fun g x y hx hy => ?_⟩
  unfold Lz.getBlock
  split
  · rfl
  · rw [if_pos ⟨hx, hy⟩]

/-- Claim C3, witness for the amended theorem's hypotheses, instantiating
the odd-odd conjunct at the coordinate `(3, 1)` of the claim's scenario. -/
theorem c3_witness :
    (3 : Int) % 2 = 1 ∧ (1 : Int) % 2 = 1 ∧ Lz.getBlock [['o', 'B', 'o']] 3 1 = none :=
  ⟨by decide, by decide, c3_amended.2.2 [['o', 'B', 'o']] 3 1 (by decide) (by decide)⟩

/-- Claim C4, counterexample: in `get_block` of `Lazors.py`/`lazors1.py`
the convention is the opposite of the claimed one.  The doubled coordinate
`(0, 1)` (x even), which the claim says can never hold a block type, maps
to cell `(0, 0)` and reports the block `'A'`, while the odd-odd coordinate
`(1, 1)`, which the claim says maps to a block-cell, reports no block. -/
theorem c4_counterexample :
    Lz.getBlock [['A']] 0 1 = some 'A' ∧ Lz.getBlock [['A']] 1 1 = none := by
  refine ⟨rfl, rfl⟩

/-- Claim C4, amended: the claimed convention (odd-odd doubled coordinates
map to block-cell `((y-1)/2, (x-1)/2)`; a coordinate with an even
component never holds a block type) is the one realized by the full grid
of `lazors3.py`: in range, an odd-odd `(x, y)` holds the original cell
`((y-1)/2, (x-1)/2)` and every other coordinate holds the passable
boundary character `'x'`, never a collision site.  The `get_block` of
`Lazors.py`/`lazors1.py` inverts the convention: odd-odd coordinates have
no block type there (and coordinates with an even component can report
one, as the counterexample shows). -/
theorem c4_amended (g : Grid) (x y : Nat)
    (hx : x < 2 * gridW g + 1) (hy : y < 2 * gridH g + 1) :
    (x % 2 = 1 → y % 2 = 1 →
      ((Lz3.generateFullGrid g).getD y []).getD x 'x'
        = (g.getD ((y - 1) / 2) []).getD ((x - 1) / 2) 'x') ∧
    (x % 2 = 0 ∨ y % 2 = 0 →
      ((Lz3.generateFullGrid g).getD y []).getD x 'x' = 'x') ∧
    (∀ (g2 : Grid) (a b : Int), a % 2 = 1 → b % 2 = 1 → Lz.getBlock g2 a b = none) := by
  have hrow : (Lz3.generateFullGrid g).getD y [] =
      if y % 2 = 0 then List.replicate (2 * gridW g + 1) 'x'
      else (List.range (2 * gridW g + 1)).map (fun j =>
        if j % 2 = 0 then 'x'
        else (g.getD ((y - 1) / 2) []).getD ((j - 1) / 2) 'x') := by
    unfold Lz3.generateFullGrid
    simp [List.getD_eq_getElem?_getD, List.getElem?_map, List.getElem?_range, hy]
  refine ⟨?_, ?_, ?_⟩
  · intro hx1 hy1
    rw [hrow, if_neg (by omega)]
    simp [List.getD_eq_getElem?_getD, List.getElem?_map, List.getElem?_range, hx]
    intro hx0
    omega
  · intro hpar
    rcases Nat.mod_two_eq_zero_or_one y with hy0 | hy0
    · rw [hrow, if_pos (by omega)]
      simp [List.getD_eq_getElem?_getD, List.getElem?_replicate]
      split <;> simp
    · have hx0 : x % 2 = 0 := by
        rcases hpar with h | h
        · exact h
        · omega
      rw [hrow, if_neg (by omega)]
      simp [List.getD_eq_getElem?_getD, List.getElem?_map, List.getElem?_range, hx, hx0]
  · intro g2 a b ha hb
    unfold Lz.getBlock
    split
    · rfl
    · rw [if_pos ⟨ha, hb⟩]

/-- Claim C4, witness for the amended theorem, instantiated at the odd-odd
coordinate `(3, 1)` and the even-component coordinate test of the grid row
`['o', 'B', 'o']`. -/
theorem c4_witness :
    3 < 2 * gridW [['o', 'B', 'o']] + 1 ∧ 1 < 2 * gridH [['o', 'B', 'o']] + 1 ∧
    ((Lz3.generateFullGrid [['o', 'B', 'o']]).getD 1 []).getD 3 'x'
      = ([['o', 'B', 'o']].getD 0 []).getD 1 'x' :=
  ⟨by decide, by decide,
    (c4_amended [['o', 'B', 'o']] 3 1 (by decide) (by decide)).1 (by decide) (by decide)⟩

/-- Claim C2, counterexample: on the candidate grid `[['o', 'o']]` with
lasers from `(0, 0)` direction `(1, 1)` and `(0, 1)` direction `(1, -1)`
and the single target `(1, 0)`, the union of the two traces covers the
target, yet the per-laser short-circuit of `solve_with_bruteforce` in
`lazors1.py` rejects the candidate, because the target is only covered by
the second laser: the short-circuit is not a pure optimization and a
superset hit-set is not sufficient for acceptance there. -/
theorem c2_counterexample :
    Lz.accepts [['o', 'o']] [((0, 0), (1, 1)), ((0, 1), (1, -1))] [(1, 0)] = false ∧
    (∀ p ∈ ([(1, 0)] : List Pos),
      p ∈ Lz.traceLaser [['o', 'o']] (0, 0) (1, 1) 50 ++
          Lz.traceLaser [['o', 'o']] (0, 1) (1, -1) 50) := by
  refine ⟨by decide, by decide⟩

/-- Claim C2, amended: the acceptance test of `solve_puzzle` in
`lazors3.py` accepts a candidate if and only if the union of the
visited-point sets of all lasers traced on it covers every target; the
per-laser short-circuit of `lazors1.py` is not a pure optimization — it
additionally requires every prefix-union of the traces to cover the
targets, so a candidate whose targets are only covered jointly by later
lasers is rejected there. -/
theorem c2_amended (g : Grid) (lazors : List (Pos × Dir)) (targets : List Pos) :
    Lz3.accepts g lazors targets = true ↔
      ∀ p ∈ targets, ∃ sd ∈ lazors, p ∈ Lz3.trace g sd.1 sd.2 200 := by
  simp [Lz3.accepts, Lz3.allHits, List.all_eq_true, List.mem_flatMap]

/-- Claim C2, witness: a concrete candidate accepted by the `lazors3.py`
test, via the amended equivalence. -/
theorem c2_witness :
    Lz3.accepts [['o', 'o']] [((0, 0), (1, 1))] [(0, 0)] = true :=
  (c2_amended [['o', 'o']] [((0, 0), (1, 1))] [(0, 0)]).mpr (by decide)

/-- Claim C8: when the inventory exceeds the number of empty slots, the
guard of `solve_with_bruteforce` (`Lazors.py` lines 192-194, identical in
`lazors1.py`) returns the no-solution outcome before any enumeration, and
in `solve_puzzle` of `lazors2.py`, which has no guard, the size-`k`
combination list of the slots is empty, so the candidate list is empty,
no candidate is evaluated and no laser is traced, and the result is the
same no-solution outcome. -/
theorem c8_claim (d : Lz.PuzzleData) (maxA : Nat) (orderL : List (List Char))
    (h : (Lz.emptySlots d.grid).length < Lz.totalBlocks d) :
    Lz.solve d maxA orderL = none ∧
    Lz.combinations (Lz.totalBlocks d) (Lz.emptySlots d.grid) = [] ∧
    Lz2.candidateGrids d maxA = [] ∧
    Lz2.solve d maxA = none := by
  have hcomb : Lz.combinations (Lz.totalBlocks d) (Lz.emptySlots d.grid) = [] := by
    have hlen := List.length_sublistsLen (Lz.totalBlocks d) (Lz.emptySlots d.grid)
    rw [Nat.choose_eq_zero_of_lt h] at hlen
    exact List.length_eq_zero.mp hlen
  have hpairs : ∀ o, Lz.candidatePairs (Lz.emptySlots d.grid) (Lz.totalBlocks d) o = [] := by
    intro o
    unfold Lz.candidatePairs
    rw [hcomb]
    rfl
  have hgrids2 : Lz2.candidateGrids d maxA = [] := by
    unfold Lz2.candidateGrids
    rw [hpairs]
    simp
  refine ⟨?_, hcomb, hgrids2, ?_⟩
  · unfold Lz.solve
    by_cases h0 : Lz.totalBlocks d = 0
    · rw [if_pos h0]
    · rw [if_neg h0, if_pos h]
  · unfold Lz2.solve
    rw [hgrids2]
    rfl

/-- Claim C8, witness: one empty slot but an inventory of two reflective
blocks. -/
theorem c8_witness :
    (Lz.emptySlots [['o']]).length <
      Lz.totalBlocks ⟨[['o']], 2, 0, 0, [((0, 0), (1, 1))], [(0, 0)]⟩ ∧
    Lz.solve ⟨[['o']], 2, 0, 0, [((0, 0), (1, 1))], [(0, 0)]⟩ 100000
      (Lz.distinctPerms (Lz.blockTypesList 2 0 0)) = none ∧
    Lz2.solve ⟨[['o']], 2, 0, 0, [((0, 0), (1, 1))], [(0, 0)]⟩ 100000 = none :=
  ⟨by decide, (c8_claim _ 100000 _ (by decide)).1, (c8_claim _ 100000
    (Lz.distinctPerms (Lz.blockTypesList 2 0 0)) (by decide)).2.2.2⟩

/-- Helper frame lemma: writing one cell leaves every other cell (and
every out-of-range read) unchanged. -/
theorem cellD_setCell_frame (g : Grid) (a b i j : Nat) (c : Char)
    (h : ¬(i = a ∧ j = b)) : Lz.cellD (Lz.setCell g a b c) i j = Lz.cellD g i j := by
  unfold Lz.cellD Lz.setCell
  by_cases hia : a = i
  · subst hia
    by_cases hlen : a < g.length
    · have houter : (g.set a ((g.getD a []).set b c)).getD a [] = (g.getD a []).set b c := by
        rw [List.getD_eq_getElem?_getD, List.getElem?_set, if_pos rfl, if_pos hlen]
        rfl
      rw [houter]
      have hjb : ¬(b = j) := fun hb => h ⟨rfl, hb.symm⟩
      rw [List.getD_eq_getElem?_getD, List.getElem?_set, if_neg hjb,
        ← List.getD_eq_getElem?_getD]
    · have h1 : (g.set a ((g.getD a []).set b c)).getD a [] = [] := by
        rw [List.getD_eq_getElem?_getD, List.getElem?_set, if_pos rfl, if_neg hlen]
        rfl
      have h2 : g.getD a [] = [] := by
        rw [List.getD_eq_getElem?_getD, List.getElem?_eq_none (by omega)]
        rfl
      rw [h1, h2]
  · have houter : (g.set a ((g.getD a []).set b c)).getD i [] = g.getD i [] := by
      rw [List.getD_eq_getElem?_getD (g.set a ((g.getD a []).set b c)) i [],
        List.getElem?_set, if_neg hia, ← List.getD_eq_getElem?_getD]
    rw [houter]

/-- Claim C9: candidate filling writes only the zipped slot cells — every
cell outside the written positions of the fresh copy keeps its pre-fill
value — and whenever the solver of `lazors1.py` returns a candidate, that
candidate is the fill of the solver's own unmodified base grid by one
enumerated (slot combination, type permutation) pair (every candidate is
built from the same base value; Lean's value semantics models the
per-candidate `copy.deepcopy`). -/
theorem c9_claim (g : Grid) (ps : List ((Nat × Nat) × Char)) (i j : Nat)
    (h : (i, j) ∉ ps.map Prod.fst) :
    Lz.cellD (Lz.fillCells g ps) i j = Lz.cellD g i j ∧
    (∀ (d : Lz.PuzzleData) (maxA : Nat) (orderL : List (List Char)) (res : Grid),
      Lz.solve d maxA orderL = some res →
      ∃ sp ∈ (Lz.candidatePairs (Lz.emptySlots d.grid) (Lz.totalBlocks d) orderL).take
          maxA,
        res = Lz.fillCells d.grid (sp.1.zip sp.2) ∧
        Lz.accepts res d.lazors d.points = true) := by
  constructor
  · induction ps generalizing g with
    | nil => rfl
    | cons p rest ih =>
      simp only [List.map_cons, List.mem_cons, not_or] at h
      have step : Lz.fillCells g (p :: rest) =
          Lz.fillCells (Lz.setCell g p.1.1 p.1.2 p.2) rest := rfl
      rw [step, ih (Lz.setCell g p.1.1 p.1.2 p.2) h.2]
      apply cellD_setCell_frame
      intro hc
      exact h.1 (by
        have : (i, j) = p.1 := by
          rcases hc with ⟨h1, h2⟩
          cases p
          simp_all [Prod.ext_iff]
        exact this)
  · intro d maxA orderL res hres
    unfold Lz.solve at hres
    by_cases h0 : Lz.totalBlocks d = 0
    · rw [if_pos h0] at hres
      exact absurd hres (by simp)
    · rw [if_neg h0] at hres
      by_cases h1 : (Lz.emptySlots d.grid).length < Lz.totalBlocks d
      · rw [if_pos h1] at hres
        exact absurd hres (by simp)
      · rw [if_neg h1] at hres
        have hmem := List.mem_of_find?_eq_some hres
        have hacc := List.find?_some hres
        unfold Lz.candidateGrids at hmem
        rcases List.mem_map.mp hmem with ⟨sp, hsp, hfill⟩
        exact ⟨sp, hsp, hfill.symm, hacc⟩

/-- Claim C9, witness: filling slot `(0, 0)` of `[['o', 'o']]` leaves cell
`(0, 1)` unchanged. -/
theorem c9_witness :
    ((0, 1) : Nat × Nat) ∉ ([((0, 0), 'A')].map Prod.fst) ∧
    Lz.cellD (Lz.fillCells [['o', 'o']] [((0, 0), 'A')]) 0 1 = Lz.cellD [['o', 'o']] 0 1 :=
  ⟨by decide, (c9_claim [['o', 'o']] [((0, 0), 'A')] 0 1 (by decide)).1⟩

/-- Claim C10: with an all-zero inventory, `solve_with_bruteforce`
(`Lazors.py` lines 189-191, `lazors1.py` lines 202-204) returns the
no-solution outcome at its first guard, before any candidate is
enumerated or any laser traced, whatever the attempt cap and permutation
order. -/
theorem c10_claim (d : Lz.PuzzleData) (maxA : Nat) (orderL : List (List Char))
    (h : Lz.totalBlocks d = 0) :
    Lz.solve d maxA orderL = none := by
  unfold Lz.solve
  rw [if_pos h]

/-- Claim C10, witness: a puzzle whose single fixed reflective block
already puts the laser on the only target, yet the all-zero inventory
makes the solver return the no-solution outcome. -/
theorem c10_witness :
    Lz.totalBlocks ⟨[['A']], 0, 0, 0, [((0, 0), (1, 1))], [(0, 0)]⟩ = 0 ∧
    Lz.solve ⟨[['A']], 0, 0, 0, [((0, 0), (1, 1))], [(0, 0)]⟩ 100000 [] = none ∧
    (∀ p ∈ ([(0, 0)] : List Pos), p ∈ Lz.traceLaser [['A']] (0, 0) (1, 1) 50) :=
  ⟨rfl, c10_claim _ 100000 [] rfl, by decide⟩

/-- Claim C5, counterexample: the candidate order of
`solve_with_bruteforce` in `Lazors.py`/`lazors1.py` is not a function of
the puzzle input.  The enumeration iterates
`set(itertools.permutations(block_types))`, and CPython's set iteration
order over tuples of strings depends on the per-process hash seed, so two
runs on identical input may see the two orders below.  Both are orders of
the same two-element set (equal as multisets), yet the enumerator yields
the candidate pairs in different orders, contradicting "yields candidates
in the same order on every run". -/
theorem c5_counterexample :
    (Multiset.ofList [['A', 'B'], ['B', 'A']] =
      Multiset.ofList [['B', 'A'], ['A', 'B']]) ∧
    Lz.candidatePairs [(0, 0), (0, 1)] 2 [['A', 'B'], ['B', 'A']] ≠
      Lz.candidatePairs [(0, 0), (0, 1)] 2 [['B', 'A'], ['A', 'B']] := by
  refine ⟨by decide, by decide⟩

/-- Claim C5, amended: in the embedding every solver is a pure function of
its declared inputs, so `lazors3.py` (whose permutation order is sympy's
fixed `multiset_permutations` order) yields candidates in the same order
and returns the same result on every run; for `Lazors.py`/`lazors1.py`
only the multiset of enumerated candidates is run-independent — any two
set-iteration orders of the same distinct permutations produce
enumerations that are permutations of each other — while the sequence
order (and hence, when several candidates are acceptable within the
attempt cap, the returned candidate) can differ between runs. -/
theorem c5_amended (slots : List (Nat × Nat)) (k : Nat)
    (o1 o2 : List (List Char)) (h : o1.Perm o2) :
    (Lz.candidatePairs slots k o1).Perm (Lz.candidatePairs slots k o2) := by
  unfold Lz.candidatePairs
  induction Lz.combinations k slots with
  | nil => exact List.Perm.refl _
  | cons s rest ih =>
    rw [List.flatMap_cons, List.flatMap_cons]
    exact (h.map _).append ih

/-- Claim C5, witness: the amended permutation statement at the two
concrete set orders of the counterexample. -/
theorem c5_witness :
    ([['A', 'B'], ['B', 'A']] : List (List Char)).Perm [['B', 'A'], ['A', 'B']] ∧
    (Lz.candidatePairs [(0, 0), (0, 1)] 2 [['A', 'B'], ['B', 'A']]).Perm
      (Lz.candidatePairs [(0, 0), (0, 1)] 2 [['B', 'A'], ['A', 'B']]) :=
  ⟨by decide, c5_amended [(0, 0), (0, 1)] 2 _ _ (by decide)⟩

/-- Helper: the sum over the support of the multiplicities of a list is
its length. -/
theorem sum_toFinset_count (l : List Char) :
    ∑ ch ∈ l.toFinset, l.count ch = l.length := by
  simp

/-- Helper: the distinct permutations of a nonempty list are exactly the
lists obtained by choosing a first element from its support and appending
a distinct permutation of the remainder. -/
theorem permsFinset_biUnion (x : Char) (t : List Char) :
    (x :: t).permutations.toFinset =
      (x :: t).toFinset.biUnion (fun ch =>
        (((x :: t).erase ch).permutations.toFinset).image (fun l2 => ch :: l2)) := by
  ext l2
  simp only [List.mem_toFinset, List.mem_permutations, Finset.mem_biUnion,
    Finset.mem_image]
  constructor
  · intro hperm
    cases l2 with
    | nil =>
      have := hperm.length_eq
      simp at this
    | cons h2 t2 =>
      have hmem : h2 ∈ x :: t := (List.cons_perm_iff_perm_erase.mp hperm).1
      exact ⟨h2, hmem, t2, (List.cons_perm_iff_perm_erase.mp hperm).2, rfl⟩
  · rintro ⟨ch, hch, t2, ht2, rfl⟩
    exact List.cons_perm_iff_perm_erase.mpr ⟨hch, ht2⟩

/-- Helper: the number of distinct permutations of a list, multiplied by
the product of the factorials of its multiplicities, is the factorial of
its length.  This is the multiset-permutation count used by claim C7. -/
theorem permsCard_mul_prod (n : Nat) :
    ∀ l : List Char, l.length = n →
      l.permutations.toFinset.card * ∏ y ∈ l.toFinset, (l.count y).factorial
        = n.factorial := by
  induction n using Nat.strong_induction_on with
  | _ n ih =>
    intro l hl
    cases l with
    | nil =>
      have h0 : n = 0 := by simpa using hl.symm
      subst h0
      simp [List.permutations_nil]
    | cons x t =>
      have hn : t.length + 1 = n := by simpa using hl
      have hdisj : ∀ c1 ∈ (x :: t).toFinset, ∀ c2 ∈ (x :: t).toFinset, c1 ≠ c2 →
          Disjoint ((((x :: t).erase c1).permutations.toFinset).image (fun l2 => c1 :: l2))
            ((((x :: t).erase c2).permutations.toFinset).image (fun l2 => c2 :: l2)) := by
        intro c1 _ c2 _ hne
        simp only [Finset.disjoint_left, Finset.mem_image]
        rintro l2 ⟨a1, _, rfl⟩ ⟨a2, _, heq⟩
        injection heq with heq1 _
        exact hne heq1.symm
      have hrec : (x :: t).permutations.toFinset.card
          = ∑ ch ∈ (x :: t).toFinset, ((x :: t).erase ch).permutations.toFinset.card := by
        rw [permsFinset_biUnion x t, Finset.card_biUnion hdisj]
        refine Finset.sum_congr rfl fun ch _ => ?_
        exact Finset.card_image_of_injective _ (fun a1 a2 hab => by injection hab)
      have hstep : ∀ ch ∈ (x :: t).toFinset,
          ((x :: t).erase ch).permutations.toFinset.card *
            ∏ y ∈ (x :: t).toFinset, ((x :: t).count y).factorial
          = (x :: t).count ch * t.length.factorial := by
        intro ch hch
        have hchmem : ch ∈ x :: t := List.mem_toFinset.mp hch
        have hlen : ((x :: t).erase ch).length = t.length := by
          rw [List.length_erase_of_mem hchmem]
          simp
        have hsub : ((x :: t).erase ch).toFinset ⊆ (x :: t).toFinset := fun y hy =>
          List.mem_toFinset.mpr (List.mem_of_mem_erase (List.mem_toFinset.mp hy))
        have hih := ih t.length (by omega) ((x :: t).erase ch) hlen
        have hprodext :
            ∏ y ∈ ((x :: t).erase ch).toFinset, (((x :: t).erase ch).count y).factorial
            = ∏ y ∈ (x :: t).toFinset, (((x :: t).erase ch).count y).factorial := by
          refine Finset.prod_subset hsub fun y _ hyn => ?_
          have hz : ((x :: t).erase ch).count y = 0 := by
            rw [List.count_eq_zero]
            intro hmem
            exact hyn (List.mem_toFinset.mpr hmem)
          rw [hz]
          rfl
        have hcount1 : 0 < (x :: t).count ch := List.count_pos_iff.mpr hchmem
        have hfact : ((x :: t).count ch).factorial
            = (x :: t).count ch * (((x :: t).erase ch).count ch).factorial := by
          rw [List.count_erase_self]
          cases hc : (x :: t).count ch with
          | zero => omega
          | succ m => simp [Nat.factorial_succ]
        have hcongr : ∏ y ∈ ((x :: t).toFinset).erase ch, ((x :: t).count y).factorial
            = ∏ y ∈ ((x :: t).toFinset).erase ch,
                (((x :: t).erase ch).count y).factorial :=
          Finset.prod_congr rfl fun y hy => by
            rw [List.count_erase_of_ne (Finset.ne_of_mem_erase hy)]
        calc ((x :: t).erase ch).permutations.toFinset.card *
              ∏ y ∈ (x :: t).toFinset, ((x :: t).count y).factorial
            = ((x :: t).erase ch).permutations.toFinset.card *
              (((x :: t).count ch).factorial *
                ∏ y ∈ ((x :: t).toFinset).erase ch, ((x :: t).count y).factorial) := by
              rw [Finset.mul_prod_erase ((x :: t).toFinset)
                (fun y => ((x :: t).count y).factorial) hch]
          _ = (x :: t).count ch * (((x :: t).erase ch).permutations.toFinset.card *
              ((((x :: t).erase ch).count ch).factorial *
                ∏ y ∈ ((x :: t).toFinset).erase ch,
                  (((x :: t).erase ch).count y).factorial)) := by
              rw [hfact, hcongr]
              ring
          _ = (x :: t).count ch * (((x :: t).erase ch).permutations.toFinset.card *
              ∏ y ∈ (x :: t).toFinset, (((x :: t).erase ch).count y).factorial) := by
              rw [Finset.mul_prod_erase ((x :: t).toFinset)
                (fun y => (((x :: t).erase ch).count y).factorial) hch]
          _ = (x :: t).count ch * (((x :: t).erase ch).permutations.toFinset.card *
              ∏ y ∈ ((x :: t).erase ch).toFinset,
                (((x :: t).erase ch).count y).factorial) := by
              rw [hprodext]
          _ = (x :: t).count ch * t.length.factorial := by rw [hih]
      calc (x :: t).permutations.toFinset.card *
            ∏ y ∈ (x :: t).toFinset, ((x :: t).count y).factorial
          = ∑ ch ∈ (x :: t).toFinset, (((x :: t).erase ch).permutations.toFinset.card *
              ∏ y ∈ (x :: t).toFinset, ((x :: t).count y).factorial) := by
            rw [hrec, Finset.sum_mul]
        _ = ∑ ch ∈ (x :: t).toFinset, ((x :: t).count ch * t.length.factorial) :=
            Finset.sum_congr rfl hstep
        _ = (∑ ch ∈ (x :: t).toFinset, (x :: t).count ch) * t.length.factorial := by
            rw [Finset.sum_mul]
        _ = (x :: t).length * t.length.factorial := by rw [sum_toFinset_count]
        _ = n.factorial := by
            rw [← hn]
            simp [Nat.factorial_succ]

/-- Helper: the structurally recursive permutation enumeration and the
library one contain the same lists, so their supports agree. -/
theorem permsFinset_eq_permsFinset (l : List Char) :
    l.permutations'.toFinset = l.permutations.toFinset := by
  ext s
  simp [List.mem_permutations, List.mem_permutations']

/-- Helper: the enumerator pairs every slot combination with every entry
of the type-permutation list, so its length is the product of the two
lengths. -/
theorem candidatePairs_length (slots : List (Nat × Nat)) (k : Nat)
    (o : List (List Char)) :
    (Lz.candidatePairs slots k o).length = (Lz.combinations k slots).length * o.length := by
  unfold Lz.candidatePairs
  induction Lz.combinations k slots with
  | nil => simp
  | cons s rest ih =>
    rw [List.flatMap_cons, List.length_append, List.length_map, ih, List.length_cons]
    ring

/-- Helper: the product of the factorials of the multiplicities of the
inventory list is `a! * b! * c!`. -/
theorem prod_count_blockTypes (a b c : Nat) :
    ∏ y ∈ (Lz.blockTypesList a b c).toFinset,
      ((Lz.blockTypesList a b c).count y).factorial
      = a.factorial * b.factorial * c.factorial := by
  have hsub : (Lz.blockTypesList a b c).toFinset ⊆ ({'A', 'B', 'C'} : Finset Char) := by
    intro y hy
    have hmem := List.mem_toFinset.mp hy
    simp only [Lz.blockTypesList, List.mem_append, List.mem_replicate] at hmem
    rcases hmem with (⟨_, rfl⟩ | ⟨_, rfl⟩) | ⟨_, rfl⟩ <;> simp
  have hext : ∏ y ∈ (Lz.blockTypesList a b c).toFinset,
        ((Lz.blockTypesList a b c).count y).factorial
      = ∏ y ∈ ({'A', 'B', 'C'} : Finset Char),
          ((Lz.blockTypesList a b c).count y).factorial := by
    refine Finset.prod_subset hsub fun y _ hyn => ?_
    have hz : (Lz.blockTypesList a b c).count y = 0 := by
      rw [List.count_eq_zero]
      intro hmem
      exact hyn (List.mem_toFinset.mpr hmem)
    rw [hz]
    rfl
  have hA : (Lz.blockTypesList a b c).count 'A' = a := by
    simp [Lz.blockTypesList, List.count_append, List.count_replicate]
  have hB : (Lz.blockTypesList a b c).count 'B' = b := by
    simp [Lz.blockTypesList, List.count_append, List.count_replicate]
  have hC : (Lz.blockTypesList a b c).count 'C' = c := by
    simp [Lz.blockTypesList, List.count_append, List.count_replicate]
  rw [hext,
    show ({'A', 'B', 'C'} : Finset Char) = insert 'A' (insert 'B' {'C'}) from rfl,
    Finset.prod_insert (by decide), Finset.prod_insert (by decide),
    Finset.prod_singleton, hA, hB, hC, mul_assoc]

/-- Helper: every interaction of `Lazors.py` yields at most two outgoing
directions. -/
theorem calcInteraction_len_le (bt : Char) (d : Dir) (p : Pos) :
    (Lz.calcInteraction bt d p).length ≤ 2 := by
  simp only [Lz.calcInteraction]
  split_ifs <;> simp

/-- Helper: every interaction of `lazors2.py`/`lazors3.py` yields at most
two outgoing directions. -/
theorem lz2_calcInteraction_len_le (bt : Char) (d : Dir) (p : Pos) :
    (Lz2.calcInteraction bt d p).length ≤ 2 := by
  simp only [Lz2.calcInteraction]
  split_ifs <;> simp

/-- Helper: one straight-line flight queues at most two successor
states. -/
theorem walk_queue_le (g : Grid) :
    ∀ (fuel : Nat) (x y dx dy : Int), (Lz.walk g fuel x y dx dy).2.length ≤ 2 := by
  intro fuel
  induction fuel with
  | zero =>
    intro x y dx dy
    simp [Lz.walk]
  | succ k ih =>
    intro x y dx dy
    simp only [Lz.walk]
    split
    · simp
    · split
      · simpa using calcInteraction_len_le _ _ _
      · simpa using ih (x + dx) (y + dy) dx dy

/-- Helper: the flight measure is positive. -/
theorem walkMeasure_pos (g : Grid) (x y dx dy : Int) :
    1 ≤ Lz.walkMeasure g x y dx dy := by
  unfold Lz.walkMeasure
  repeat' split
  all_goals omega

/-- Helper: the flight measure never exceeds the flight fuel bound. -/
theorem walkMeasure_le (g : Grid) (x y dx dy : Int) :
    Lz.walkMeasure g x y dx dy ≤ Lz.walkFuel g := by
  unfold Lz.walkMeasure Lz.walkFuel
  repeat' split
  all_goals omega

/-- Claim C6 helper: beyond the flight measure, extra fuel does not change
one straight-line flight — the inner loop of `trace_laser` in `Lazors.py`
terminates for every valid direction. -/
theorem walk_spent (g : Grid) (dx dy : Int)
    (hdx : dx = -1 ∨ dx = 0 ∨ dx = 1) (hdy : dy = -1 ∨ dy = 0 ∨ dy = 1)
    (hnz : ¬(dx = 0 ∧ dy = 0)) :
    ∀ (n : Nat) (x y : Int) (f1 f2 : Nat),
      Lz.walkMeasure g x y dx dy ≤ n → n ≤ f1 → n ≤ f2 →
      Lz.walk g f1 x y dx dy = Lz.walk g f2 x y dx dy := by
  intro n
  induction n with
  | zero =>
    intro x y f1 f2 hm _ _
    have := walkMeasure_pos g x y dx dy
    omega
  | succ k ih =>
    intro x y f1 f2 hm h1 h2
    cases f1 with
    | zero => omega
    | succ k1 =>
      cases f2 with
      | zero => omega
      | succ k2 =>
        simp only [Lz.walk]
        by_cases hb : x < 0 ∨ y < 0 ∨ (2 * gridW g : Int) ≤ x ∨ (2 * gridH g : Int) ≤ y
        · rw [if_pos hb, if_pos hb]
        · rw [if_neg hb, if_neg hb]
          by_cases hcol : Lz.getBlock g x y = some 'A' ∨ Lz.getBlock g x y = some 'B' ∨
              Lz.getBlock g x y = some 'C'
          · rw [if_pos hcol, if_pos hcol]
          · rw [if_neg hcol, if_neg hcol]
            have hrec : Lz.walk g k1 (x + dx) (y + dy) dx dy
                = Lz.walk g k2 (x + dx) (y + dy) dx dy := by
              apply ih (x + dx) (y + dy) k1 k2 ?_ (by omega) (by omega)
              unfold Lz.walkMeasure at hm ⊢
              rcases hdx with rfl | rfl | rfl <;> rcases hdy with rfl | rfl | rfl <;>
                norm_num at hm ⊢ <;>
                first
                  | omega
                  | (split_ifs at hm ⊢ <;> omega)
            rw [hrec]

/-- Claim C6 helper: beyond `|queue| + 2 * maxRefl`, extra fuel does not
change the outer work-queue loop of `trace_laser` in `Lazors.py` — the
visited-set guard bounds the loop. -/
theorem traceAux_spent (g : Grid) (maxRefl : Nat) :
    ∀ (n : Nat) (queue visited : List BeamState) (acc : List Pos) (f1 f2 : Nat),
      queue.length + 2 * (maxRefl - visited.length) ≤ n → n ≤ f1 → n ≤ f2 →
      Lz.traceAux g maxRefl f1 queue visited acc
        = Lz.traceAux g maxRefl f2 queue visited acc := by
  intro n
  induction n with
  | zero =>
    intro queue visited acc f1 f2 hn _ _
    cases queue with
    | nil => simp [Lz.traceAux]
    | cons s rest =>
      rw [List.length_cons] at hn
      omega
  | succ k ih =>
    intro queue visited acc f1 f2 hn h1 h2
    cases queue with
    | nil => simp [Lz.traceAux]
    | cons s rest =>
      cases f1 with
      | zero => omega
      | succ k1 =>
        cases f2 with
        | zero => omega
        | succ k2 =>
          simp only [Lz.traceAux]
          by_cases hguard : maxRefl ≤ visited.length
          · rw [if_pos hguard, if_pos hguard]
          · rw [if_neg hguard, if_neg hguard]
            by_cases hmem : s ∈ visited
            · rw [if_pos hmem, if_pos hmem]
              apply ih rest visited acc k1 k2 ?_ (by omega) (by omega)
              rw [List.length_cons] at hn
              omega
            · rw [if_neg hmem, if_neg hmem]
              apply ih _ _ _ k1 k2 ?_ (by omega) (by omega)
              have hw := walk_queue_le g (Lz.walkFuel g) s.1.1 s.1.2 s.2.1 s.2.2
              rw [List.length_cons] at hn
              rw [List.length_append, List.length_cons]
              omega

/-- Claim C6 helper: starting from a duplicate-free visited set no larger
than the budget, the visited set stays duplicate-free (no beam state is
processed twice) and never exceeds `max_reflections`. -/
theorem traceAux_visited (g : Grid) (maxRefl : Nat) :
    ∀ (fuel : Nat) (queue visited : List BeamState) (acc : List Pos),
      visited.Nodup → visited.length ≤ maxRefl →
      (Lz.traceAux g maxRefl fuel queue visited acc).2.Nodup ∧
      (Lz.traceAux g maxRefl fuel queue visited acc).2.length ≤ maxRefl := by
  intro fuel
  induction fuel with
  | zero =>
    intro queue visited acc hnd hle
    cases queue with
    | nil => exact ⟨hnd, hle⟩
    | cons s rest => exact ⟨hnd, hle⟩
  | succ k ih =>
    intro queue visited acc hnd hle
    cases queue with
    | nil => exact ⟨hnd, hle⟩
    | cons s rest =>
      simp only [Lz.traceAux]
      by_cases hguard : maxRefl ≤ visited.length
      · rw [if_pos hguard]
        exact ⟨hnd, hle⟩
      · rw [if_neg hguard]
        by_cases hmem : s ∈ visited
        · rw [if_pos hmem]
          exact ih rest visited acc hnd hle
        · rw [if_neg hmem]
          refine ih _ (s :: visited) _ (List.nodup_cons.mpr ⟨hmem, hnd⟩) ?_
          rw [List.length_cons]
          omega

/-- Claim C6 helper: beyond `|queue| + 2 * maxSteps`, extra fuel does not
change the work-queue loop of `Lazor.trace` in `lazors3.py` — the step
budget bounds the loop (there, even for a zero direction). -/
theorem lz3_traceAux_spent (g : Grid) (maxSteps : Nat) :
    ∀ (n : Nat) (queue visited : List BeamState) (path : List Pos) (steps : Nat)
      (f1 f2 : Nat),
      queue.length + 2 * (maxSteps - steps) ≤ n → n ≤ f1 → n ≤ f2 →
      Lz3.traceAux g maxSteps f1 queue visited path steps
        = Lz3.traceAux g maxSteps f2 queue visited path steps := by
  intro n
  induction n with
  | zero =>
    intro queue visited path steps f1 f2 hn _ _
    cases queue with
    | nil => simp [Lz3.traceAux]
    | cons s rest =>
      rw [List.length_cons] at hn
      omega
  | succ k ih =>
    intro queue visited path steps f1 f2 hn h1 h2
    cases queue with
    | nil => simp [Lz3.traceAux]
    | cons s rest =>
      cases f1 with
      | zero => omega
      | succ k1 =>
        cases f2 with
        | zero => omega
        | succ k2 =>
          simp only [Lz3.traceAux]
          by_cases hguard : maxSteps ≤ steps
          · rw [if_pos hguard, if_pos hguard]
          · rw [if_neg hguard, if_neg hguard]
            by_cases hmem : s ∈ visited
            · rw [if_pos hmem, if_pos hmem]
              apply ih rest visited path steps k1 k2 ?_ (by omega) (by omega)
              rw [List.length_cons] at hn
              omega
            · rw [if_neg hmem, if_neg hmem]
              by_cases hb : s.1.1 + s.2.1 < 0 ∨ (gridW g : Int) ≤ s.1.1 + s.2.1 ∨
                  s.1.2 + s.2.2 < 0 ∨ (gridH g : Int) ≤ s.1.2 + s.2.2
              · rw [if_pos hb, if_pos hb]
                apply ih rest _ _ (steps + 1) k1 k2 ?_ (by omega) (by omega)
                rw [List.length_cons] at hn
                omega
              · rw [if_neg hb, if_neg hb]
                by_cases hcell : Lz3.cellAt g (s.1.1 + s.2.1) (s.1.2 + s.2.2) = 'A' ∨
                    Lz3.cellAt g (s.1.1 + s.2.1) (s.1.2 + s.2.2) = 'B' ∨
                    Lz3.cellAt g (s.1.1 + s.2.1) (s.1.2 + s.2.2) = 'C'
                · rw [if_pos hcell, if_pos hcell]
                  apply ih _ _ _ (steps + 1) k1 k2 ?_ (by omega) (by omega)
                  have hc := lz2_calcInteraction_len_le
                    (Lz3.cellAt g (s.1.1 + s.2.1) (s.1.2 + s.2.2)) (s.2.1, s.2.2)
                    (s.1.1 + s.2.1, s.1.2 + s.2.2)
                  rw [List.length_cons] at hn
                  rw [List.length_append, List.length_map]
                  omega
                · rw [if_neg hcell, if_neg hcell]
                  apply ih _ _ _ (steps + 1) k1 k2 ?_ (by omega) (by omega)
                  rw [List.length_cons] at hn
                  rw [List.length_append]
                  simp only [List.length_cons, List.length_nil]
                  omega

/-- Claim C6 helper: in `Lazor.trace` of `lazors3.py`, the visited set
stays duplicate-free and its growth is paid for by the step counter, so
it never exceeds `max_steps`. -/
theorem lz3_traceAux_visited (g : Grid) (maxSteps : Nat) :
    ∀ (fuel : Nat) (queue visited : List BeamState) (path : List Pos) (steps : Nat),
      visited.Nodup → visited.length ≤ steps → steps ≤ maxSteps →
      (Lz3.traceAux g maxSteps fuel queue visited path steps).2.Nodup ∧
      (Lz3.traceAux g maxSteps fuel queue visited path steps).2.length ≤ maxSteps := by
  intro fuel
  induction fuel with
  | zero =>
    intro queue visited path steps hnd hls hsm
    cases queue with
    | nil =>
      simp only [Lz3.traceAux]
      exact ⟨hnd, show visited.length ≤ maxSteps by omega⟩
    | cons s rest =>
      simp only [Lz3.traceAux]
      exact ⟨hnd, show visited.length ≤ maxSteps by omega⟩
  | succ k ih =>
    intro queue visited path steps hnd hls hsm
    cases queue with
    | nil =>
      simp only [Lz3.traceAux]
      exact ⟨hnd, show visited.length ≤ maxSteps by omega⟩
    | cons s rest =>
      simp only [Lz3.traceAux]
      by_cases hguard : maxSteps ≤ steps
      · rw [if_pos hguard]
        exact ⟨hnd, show visited.length ≤ maxSteps by omega⟩
      · rw [if_neg hguard]
        by_cases hmem : s ∈ visited
        · rw [if_pos hmem]
          exact ih rest visited path steps hnd hls hsm
        · rw [if_neg hmem]
          have hnd2 : (s :: visited).Nodup := List.nodup_cons.mpr ⟨hmem, hnd⟩
          have hls2 : (s :: visited).length ≤ steps + 1 := by
            rw [List.length_cons]
            omega
          have hsm2 : steps + 1 ≤ maxSteps := by omega
          by_cases hb : s.1.1 + s.2.1 < 0 ∨ (gridW g : Int) ≤ s.1.1 + s.2.1 ∨
              s.1.2 + s.2.2 < 0 ∨ (gridH g : Int) ≤ s.1.2 + s.2.2
          · rw [if_pos hb]
            exact ih _ _ _ _ hnd2 hls2 hsm2
          · rw [if_neg hb]
            by_cases hcell : Lz3.cellAt g (s.1.1 + s.2.1) (s.1.2 + s.2.2) = 'A' ∨
                Lz3.cellAt g (s.1.1 + s.2.1) (s.1.2 + s.2.2) = 'B' ∨
                Lz3.cellAt g (s.1.1 + s.2.1) (s.1.2 + s.2.2) = 'C'
            · rw [if_pos hcell]
              exact ih _ _ _ _ hnd2 hls2 hsm2
            · rw [if_neg hcell]
              exact ih _ _ _ _ hnd2 hls2 hsm2

/-- Claim C6: every trace terminates and stays within its budget.  For
`trace_laser` of `Lazors.py`/`lazors1.py` with a valid laser direction
(components in `{-1, 0, 1}`, not both zero): the straight-line flight is
unchanged by any fuel beyond `walkFuel`, the work-queue loop is unchanged
by any fuel beyond `1 + 2 * max_reflections` (so both loops reach their
natural exit), a popped state already in the visited set is discarded, no
beam state is processed twice (the visited set is duplicate-free), and
the visited set never exceeds `max_reflections`.  For `Lazor.trace` of
`lazors3.py` the same loop-stability, dedup and step-budget bounds hold. -/
theorem c6_claim (g : Grid) (start : Pos) (dx dy : Int) (maxRefl maxSteps : Nat)
    (hdx : dx = -1 ∨ dx = 0 ∨ dx = 1) (hdy : dy = -1 ∨ dy = 0 ∨ dy = 1)
    (hnz : ¬(dx = 0 ∧ dy = 0)) :
    (∀ f, Lz.walkFuel g ≤ f →
      Lz.walk g f start.1 start.2 dx dy
        = Lz.walk g (Lz.walkFuel g) start.1 start.2 dx dy) ∧
    (∀ f, 1 + 2 * maxRefl ≤ f →
      Lz.traceAux g maxRefl f [(start, (dx, dy))] [] []
        = Lz.traceAux g maxRefl (1 + 2 * maxRefl + 1) [(start, (dx, dy))] [] []) ∧
    (∀ (s : BeamState) (queue visited : List BeamState) (acc : List Pos) (f : Nat),
      s ∈ visited →
      Lz.traceAux g maxRefl (f + 1) (s :: queue) visited acc
        = Lz.traceAux g maxRefl f queue visited acc ∨ maxRefl ≤ visited.length) ∧
    (Lz.traceAux g maxRefl (1 + 2 * maxRefl + 1) [(start, (dx, dy))] [] []).2.Nodup ∧
    (Lz.traceAux g maxRefl (1 + 2 * maxRefl + 1)
      [(start, (dx, dy))] [] []).2.length ≤ maxRefl ∧
    (∀ f, 1 + 2 * maxSteps ≤ f →
      Lz3.traceAux g maxSteps f [(start, (dx, dy))] [] [] 0
        = Lz3.traceAux g maxSteps (1 + 2 * maxSteps + 1) [(start, (dx, dy))] [] [] 0) ∧
    (Lz3.traceAux g maxSteps (1 + 2 * maxSteps + 1)
      [(start, (dx, dy))] [] [] 0).2.Nodup ∧
    (Lz3.traceAux g maxSteps (1 + 2 * maxSteps + 1)
      [(start, (dx, dy))] [] [] 0).2.length ≤ maxSteps := by
  refine ⟨?_, ?_, ?_, ?_, ?_, ?_, ?_, ?_⟩
  · intro f hf
    exact walk_spent g dx dy hdx hdy hnz (Lz.walkFuel g) start.1 start.2 f (Lz.walkFuel g)
      (walkMeasure_le g start.1 start.2 dx dy) hf (le_refl _)
  · intro f hf
    exact traceAux_spent g maxRefl (1 + 2 * maxRefl) [(start, (dx, dy))] [] [] f
      (1 + 2 * maxRefl + 1)
      (by simp only [List.length_cons, List.length_nil]; omega) hf (by omega)
  · intro s queue visited acc f hmem
    by_cases hguard : maxRefl ≤ visited.length
    · exact Or.inr hguard
    · left
      simp only [Lz.traceAux]
      rw [if_neg hguard, if_pos hmem]
  · exact (traceAux_visited g maxRefl _ _ [] [] List.nodup_nil (by simp)).1
  · exact (traceAux_visited g maxRefl _ _ [] [] List.nodup_nil (by simp)).2
  · intro f hf
    exact lz3_traceAux_spent g maxSteps (1 + 2 * maxSteps) [(start, (dx, dy))] [] [] 0 f
      (1 + 2 * maxSteps + 1)
      (by simp only [List.length_cons, List.length_nil]; omega) hf (by omega)
  · exact (lz3_traceAux_visited g maxSteps _ _ [] [] 0 List.nodup_nil (by simp)
      (by omega)).1
  · exact (lz3_traceAux_visited g maxSteps _ _ [] [] 0 List.nodup_nil (by simp)
      (by omega)).2

/-- Claim C6, witness: the theorem instantiated on the one-cell grid with
the diagonal direction `(1, 1)` and the default budgets. -/
theorem c6_witness :
    ((1 : Int) = -1 ∨ (1 : Int) = 0 ∨ (1 : Int) = 1) ∧
    (Lz.traceAux [['A']] 50 (1 + 2 * 50 + 1) [((0, 0), (1, 1))] [] []).2.Nodup ∧
    (Lz.traceAux [['A']] 50 (1 + 2 * 50 + 1) [((0, 0), (1, 1))] [] []).2.length ≤ 50 :=
  ⟨Or.inr (Or.inr rfl),
    (c6_claim [['A']] (0, 0) 1 1 50 200 (Or.inr (Or.inr rfl)) (Or.inr (Or.inr rfl))
      (by simp)).2.2.2.1,
    (c6_claim [['A']] (0, 0) 1 1 50 200 (Or.inr (Or.inr rfl)) (Or.inr (Or.inr rfl))
      (by simp)).2.2.2.2.1⟩

/-- Claim C7: for every inventory `(a, b, c)` with `k = a + b + c` and
every slot list, the enumerator's distinct type-permutation list has
exactly `k! / (a! * b! * c!)` entries (stated both in product form and in
the claim's division form), the slot-combination list has `C(|slots|, k)`
entries, the total candidate count is their product (computable up
front), and for the inventory `{A: 2, B: 1, C: 0}` there are exactly `3`
type-permutations per slot combination, never `6`. -/
theorem c7_claim (a b c : Nat) (slots : List (Nat × Nat)) :
    (Lz.distinctPerms (Lz.blockTypesList a b c)).length *
        (a.factorial * b.factorial * c.factorial) = (a + b + c).factorial ∧
    (Lz.distinctPerms (Lz.blockTypesList a b c)).length
      = (a + b + c).factorial / (a.factorial * b.factorial * c.factorial) ∧
    (Lz.combinations (a + b + c) slots).length = slots.length.choose (a + b + c) ∧
    (Lz.candidatePairs slots (a + b + c)
        (Lz.distinctPerms (Lz.blockTypesList a b c))).length
      = slots.length.choose (a + b + c) *
        ((a + b + c).factorial / (a.factorial * b.factorial * c.factorial)) ∧
    (Lz.distinctPerms (Lz.blockTypesList 2 1 0)).length = 3 := by
  have hlen : (Lz.blockTypesList a b c).length = a + b + c := by
    simp [Lz.blockTypesList]
    omega
  have hcard : (Lz.distinctPerms (Lz.blockTypesList a b c)).length
      = (Lz.blockTypesList a b c).permutations.toFinset.card := by
    unfold Lz.distinctPerms
    rw [← List.card_toFinset, permsFinset_eq_permsFinset]
  have hmain := permsCard_mul_prod (a + b + c) (Lz.blockTypesList a b c) hlen
  rw [prod_count_blockTypes] at hmain
  rw [← hcard] at hmain
  have hpos : 0 < a.factorial * b.factorial * c.factorial :=
    Nat.mul_pos (Nat.mul_pos (Nat.factorial_pos a) (Nat.factorial_pos b))
      (Nat.factorial_pos c)
  have hdiv : (Lz.distinctPerms (Lz.blockTypesList a b c)).length
      = (a + b + c).factorial / (a.factorial * b.factorial * c.factorial) :=
    (Nat.div_eq_of_eq_mul_left hpos hmain.symm).symm
  refine ⟨hmain, hdiv, List.length_sublistsLen _ _, ?_, by decide⟩
  rw [candidatePairs_length]
  unfold Lz.combinations
  rw [List.length_sublistsLen, hdiv]

end LazorProof
